import Mathlib

/-!
# Verification of the wildfire-predictor computational core

A shallow embedding of the pure computational functions of `src/App.jsx`:
numeric coercion (`toNum`), region-name resolution (`normName`, the
`NAME_TO_CODE` table and the resolution step of `parseCSV`), per-province
aggregation (`aggregateByProvince`), marker scaling (`radiusFor`), the wind
heading estimator (`mod360`, `compassFromDeg`, `predictHeading`) and the
forward-geodesic projection (`destPoint`).

Modelling conventions:
* JavaScript numbers are modelled exactly: finite values as rationals (for
  the data pipeline) or reals (for the trigonometric estimator), with the
  non-finite values `NaN`/`Infinity`/`-Infinity` represented explicitly
  where the code tests for them (`Number.isFinite` guards).
* JavaScript's `%` operator (truncated remainder) is modelled by `jsRem`,
  and `Math.round` by `jsRound` (round half toward positive infinity).
* `null`/`undefined` inputs are modelled with `Option`.
-/

namespace Wildfire

/-- A JavaScript number in the data pipeline: a finite value is an exact
rational; `nan`, `inf` and `negInf` are the IEEE non-finite values that the
code's `Number.isFinite` guards test for. -/
inductive JSNum where
  | nan : JSNum
  | inf : JSNum
  | negInf : JSNum
  | fin : ℚ → JSNum
deriving DecidableEq, Repr

/-- `Number.isFinite`. -/
def JSNum.isFinite : JSNum → Bool
  | .fin _ => true
  | _ => false

/-- Digit test `0`-`9` (the `DecimalDigit` production). -/
def isDigitChar (c : Char) : Bool := '0' ≤ c && c ≤ '9'

/-- Numeric value of a decimal digit character. -/
def digitVal (c : Char) : ℕ := c.toNat - '0'.toNat

/-- Value of a list of decimal digit characters, most significant first. -/
def natOfDigits (cs : List Char) : ℕ :=
  cs.foldl (fun a c => 10 * a + digitVal c) 0

/-- Value of a hexadecimal digit character, if any. -/
def hexDigitVal (c : Char) : Option ℕ :=
  if '0' ≤ c ∧ c ≤ '9' then some (c.toNat - '0'.toNat)
  else if 'a' ≤ c ∧ c ≤ 'f' then some (c.toNat - 'a'.toNat + 10)
  else if 'A' ≤ c ∧ c ≤ 'F' then some (c.toNat - 'A'.toNat + 10)
  else none

/-- Value of a non-empty digit string in the given radix (2, 8 or 16),
`none` if empty or some character is not a digit of that radix. -/
def natOfRadix (radix : ℕ) (cs : List Char) : Option ℕ :=
  if cs.isEmpty then none
  else
    cs.foldl
      (fun acc c =>
        match acc, hexDigitVal c with
        | some a, some d => if d < radix then some (radix * a + d) else none
        | _, _ => none)
      (some 0)

/-- Exponent part of a JS decimal literal: after `e`/`E`, an optional sign
and a non-empty digit string which must consume the rest of the input. -/
def parseExpPart (m : ℚ) (cs : List Char) : Option ℚ :=
  let (sgn, ds) :=
    match cs with
    | '+' :: r => ((1 : ℤ), r)
    | '-' :: r => ((-1 : ℤ), r)
    | _ => ((1 : ℤ), cs)
  let (ep, rest) := ds.span isDigitChar
  if ep.isEmpty ∨ ¬rest.isEmpty then none
  else some (m * (10 : ℚ) ^ (sgn * (natOfDigits ep : ℤ)))

/-- An unsigned JS `StrUnsignedDecimalLiteral` (digits, optional dot,
optional fraction digits, optional exponent), which must consume the whole
input; at least one mantissa digit is required. -/
def parseUnsignedDec (cs : List Char) : Option ℚ :=
  let (ip, r1) := cs.span isDigitChar
  let (fp, r2) :=
    match r1 with
    | '.' :: rest => rest.span isDigitChar
    | _ => ([], r1)
  if ip.isEmpty ∧ fp.isEmpty then none
  else
    let mantissa : ℚ := (natOfDigits ip : ℚ) + (natOfDigits fp : ℚ) / (10 : ℚ) ^ fp.length
    match r2 with
    | [] => some mantissa
    | 'e' :: rest => parseExpPart mantissa rest
    | 'E' :: rest => parseExpPart mantissa rest
    | _ => none

/-- Strip leading and trailing whitespace characters from a character list
(the whitespace trimming `Number(string)` performs; restricted to the ASCII
whitespace of `Char.isWhitespace`, which covers the repository's data). -/
def trimChars (cs : List Char) : List Char :=
  ((cs.dropWhile Char.isWhitespace).reverse.dropWhile Char.isWhitespace).reverse

/-- A non-decimal integer literal (`0x…`, `0o…`, `0b…`): `NaN` unless the
digits are non-empty and valid in the radix. -/
def radixLiteral (radix : ℕ) (cs : List Char) : JSNum :=
  match natOfRadix radix cs with
  | some n => .fin (n : ℚ)
  | none => .nan

/-- Model of the ECMAScript `Number(string)` conversion: trim whitespace;
the empty string is `0`; then either a radix-prefixed integer literal, an
optionally signed `Infinity`, or an optionally signed decimal literal;
anything else is `NaN`. -/
def jsStrToNumber (s : String) : JSNum :=
  match trimChars s.data with
  | [] => .fin 0
  | '0' :: 'x' :: rest => radixLiteral 16 rest
  | '0' :: 'X' :: rest => radixLiteral 16 rest
  | '0' :: 'o' :: rest => radixLiteral 8 rest
  | '0' :: 'O' :: rest => radixLiteral 8 rest
  | '0' :: 'b' :: rest => radixLiteral 2 rest
  | '0' :: 'B' :: rest => radixLiteral 2 rest
  | t =>
    let (neg, body) :=
      match t with
      | '+' :: r => (false, r)
      | '-' :: r => (true, r)
      | _ => (false, t)
    if body = "Infinity".data then (if neg then .negInf else .inf)
    else
      match parseUnsignedDec body with
      | some q => .fin (if neg then -q else q)
      | none => .nan

/-- `String(v).replace(/[, ]+/g, "")`: remove every comma and space
character (src/App.jsx line 44). -/
def stripSeparators (s : String) : String :=
  ⟨s.data.filter (fun c => !(c = ',' || c = ' '))⟩

/-- `toNum` (src/App.jsx lines 43–46).  The argument models a string value
or `null`/`undefined` (`none`); `String(v ?? "")` maps `none` to `""`.
`Number.isFinite(n) ? n : NaN` collapses the infinities to `NaN`. -/
def toNum (v : Option String) : JSNum :=
  let n := jsStrToNumber (stripSeparators (v.getD ""))
  if n.isFinite then n else .nan

/-! ## Records and per-province aggregation -/

/-- One parsed CSV row (src/App.jsx line 92): a region string and the
coerced area and year numbers. -/
structure Record where
  region : String
  area_ha : JSNum
  year : JSNum
deriving DecidableEq, Repr

/-- The key set of the `CENTROIDS` table (src/App.jsx lines 7–21): the 13
canonical province/territory codes, the own keys of the object literal. -/
def centroidCodes : List String :=
  ["AB", "BC", "MB", "NB", "NL", "NS", "NT", "NU", "ON", "PE", "QC", "SK", "YT"]

/-- The property names of `Object.prototype`, which every object literal
(`CENTROIDS`, `NAME_TO_CODE`, `WAF`, `totals`) inherits: the JS `in`
operator and property reads consult the prototype chain, so these keys
are "present" on every such object, with a non-numeric, truthy inherited
value (a function, or the prototype object itself for `__proto__`). -/
def objectProtoKeys : List String :=
  ["constructor", "hasOwnProperty", "isPrototypeOf", "propertyIsEnumerable",
   "toLocaleString", "toString", "valueOf", "__defineGetter__",
   "__defineSetter__", "__lookupGetter__", "__lookupSetter__", "__proto__"]

/-- A value stored in the `totals` object of `aggregateByProvince`.
`num q` is a running numeric sum.  `str k l` is the string produced at an
`Object.prototype` key `k`: the first write reads the inherited
function/object, `(totals[k] || 0)` keeps it because it is truthy, and
`+` then concatenates — `str k l` stands for the (engine-defined)
stringification of the value inherited at `k` followed by the decimal
renderings of the numbers of `l`, in the order they were added. -/
inductive TotalVal where
  | num : ℚ → TotalVal
  | str : String → List ℚ → TotalVal
deriving DecidableEq, Repr

/-- The numeric reading `(x || 0)` of a totals entry (0 for an absent
entry), used by the summation lemmas. -/
def numOr0 : Option TotalVal → ℚ
  | some (TotalVal.num q) => q
  | _ => 0

/-- `toNum` applied to a value that is already a number
(src/App.jsx line 101 applies `toNum` to `r.area_ha`, itself a number):
`String(n)` of a finite double re-parses to exactly `n`, while the
non-finite values print as `"NaN"`/`"Infinity"`/`"-Infinity"`, which fail
the `Number.isFinite` test inside `toNum` and come back as `NaN`. -/
def toNumOfNumber (n : JSNum) : JSNum :=
  match n with
  | .fin q => .fin q
  | _ => .nan

/-- The aggregator's inclusion test (src/App.jsx lines 100–102):
`!r.region` skips the empty string; `r.region in CENTROIDS` is true for
the 13 own keys **and** for every `Object.prototype` property name,
because `in` consults the prototype chain; and the re-coerced area must
be finite. -/
def includedRec (r : Record) : Bool :=
  !(r.region == "") &&
    (centroidCodes.contains r.region || objectProtoKeys.contains r.region) &&
    (toNumOfNumber r.area_ha).isFinite

/-- The finite area value of an included record (0 for excluded ones; only
used on records whose area is finite). -/
def areaVal (r : Record) : ℚ :=
  match toNumOfNumber r.area_ha with
  | .fin q => q
  | _ => 0

/-- One step of the aggregation loop (src/App.jsx lines 99–104):
`totals[r.region] = (totals[r.region] || 0) + val` for included records,
no change otherwise.  The totals object is a partial map of **own** keys.
An absent own entry at a plain key reads `undefined`, `|| 0` yields 0 and
the entry becomes the number `val`; an absent own entry at an
`Object.prototype` key reads the inherited truthy function/object, `|| 0`
keeps it and `+` concatenates, so the entry becomes a string; further
additions to a string entry keep concatenating (a non-empty string is
truthy). -/
def aggStep (totals : String → Option TotalVal) (r : Record) : String → Option TotalVal :=
  if includedRec r then
    fun c =>
      if c = r.region then
        some (match totals r.region with
          | none =>
            if objectProtoKeys.contains r.region then
              TotalVal.str r.region [areaVal r]
            else
              TotalVal.num (areaVal r)
          | some (TotalVal.num q) => TotalVal.num (q + areaVal r)
          | some (TotalVal.str k l) => TotalVal.str k (l ++ [areaVal r]))
      else totals c
  else totals

/-- `aggregateByProvince` (src/App.jsx lines 97–106): fold the step over
the rows starting from the empty totals object. -/
def aggregateByProvince (rows : List Record) : String → Option TotalVal :=
  rows.foldl aggStep (fun _ => none)

/-- Whether some record of `rows` is included and has region `c` (i.e.
whether the totals object ends up with key `c`). -/
def hitsProvince (rows : List Record) (c : String) : Bool :=
  rows.any fun r => includedRec r && r.region == c

/-- The arithmetic sum of the areas of the included records of `rows`
whose region is `c`. -/
def sumForProvince (rows : List Record) (c : String) : ℚ :=
  ((rows.filter fun r => includedRec r && r.region == c).map areaVal).sum

/-! ## Region resolver -/

/-- `NAME_TO_CODE` (src/App.jsx lines 24–40). -/
def NAME_TO_CODE : List (String × String) :=
  [("alberta", "AB"), ("british columbia", "BC"), ("manitoba", "MB"),
   ("new brunswick", "NB"), ("newfoundland and labrador", "NL"),
   ("newfoundland & labrador", "NL"), ("nova scotia", "NS"),
   ("northwest territories", "NT"), ("nunavut", "NU"), ("ontario", "ON"),
   ("prince edward island", "PE"), ("quebec", "QC"), ("saskatchewan", "SK"),
   ("yukon", "YT"), ("pei", "PE")]

/-- `normalize("NFD").replace(/\p{Diacritic}/gu, "")` on one character:
decompose a precomposed Latin letter and drop its combining marks, i.e.
map an accented letter to its base letter.  Modelled for the Latin-1
accented letters (the repository's data domain); other characters are
unchanged. -/
def foldDiacritic (c : Char) : Char :=
  match c with
  | 'á' | 'à' | 'â' | 'ä' | 'ã' | 'å' => 'a'
  | 'é' | 'è' | 'ê' | 'ë' => 'e'
  | 'í' | 'ì' | 'î' | 'ï' => 'i'
  | 'ó' | 'ò' | 'ô' | 'ö' | 'õ' => 'o'
  | 'ú' | 'ù' | 'û' | 'ü' => 'u'
  | 'ç' => 'c'
  | 'ñ' => 'n'
  | 'ý' | 'ÿ' => 'y'
  | 'Á' | 'À' | 'Â' | 'Ä' | 'Ã' | 'Å' => 'A'
  | 'É' | 'È' | 'Ê' | 'Ë' => 'E'
  | 'Í' | 'Ì' | 'Î' | 'Ï' => 'I'
  | 'Ó' | 'Ò' | 'Ô' | 'Ö' | 'Õ' => 'O'
  | 'Ú' | 'Ù' | 'Û' | 'Ü' => 'U'
  | 'Ç' => 'C'
  | 'Ñ' => 'N'
  | 'Ý' => 'Y'
  | _ => c

/-- JS `toLowerCase` on one character, modelled for the ASCII letters and
the Latin-1 accented letters; other characters are unchanged. -/
def lowerChar (c : Char) : Char :=
  match c with
  | 'A' => 'a' | 'B' => 'b' | 'C' => 'c' | 'D' => 'd' | 'E' => 'e'
  | 'F' => 'f' | 'G' => 'g' | 'H' => 'h' | 'I' => 'i' | 'J' => 'j'
  | 'K' => 'k' | 'L' => 'l' | 'M' => 'm' | 'N' => 'n' | 'O' => 'o'
  | 'P' => 'p' | 'Q' => 'q' | 'R' => 'r' | 'S' => 's' | 'T' => 't'
  | 'U' => 'u' | 'V' => 'v' | 'W' => 'w' | 'X' => 'x' | 'Y' => 'y'
  | 'Z' => 'z'
  | 'É' => 'é' | 'È' => 'è' | 'Ê' => 'ê' | 'Ë' => 'ë'
  | 'Á' => 'á' | 'À' => 'à' | 'Â' => 'â' | 'Ä' => 'ä'
  | 'Î' => 'î' | 'Ï' => 'ï' | 'Ô' => 'ô' | 'Ö' => 'ö'
  | 'Û' => 'û' | 'Ü' => 'ü' | 'Ù' => 'ù' | 'Ç' => 'ç'
  | _ => c

/-- JS `toUpperCase` on one character, modelled for the ASCII letters and
the Latin-1 accented letters; other characters are unchanged. -/
def upperChar (c : Char) : Char :=
  match c with
  | 'a' => 'A' | 'b' => 'B' | 'c' => 'C' | 'd' => 'D' | 'e' => 'E'
  | 'f' => 'F' | 'g' => 'G' | 'h' => 'H' | 'i' => 'I' | 'j' => 'J'
  | 'k' => 'K' | 'l' => 'L' | 'm' => 'M' | 'n' => 'N' | 'o' => 'O'
  | 'p' => 'P' | 'q' => 'Q' | 'r' => 'R' | 's' => 'S' | 't' => 'T'
  | 'u' => 'U' | 'v' => 'V' | 'w' => 'W' | 'x' => 'X' | 'y' => 'Y'
  | 'z' => 'Z'
  | 'é' => 'É' | 'è' => 'È' | 'ê' => 'Ê' | 'ë' => 'Ë'
  | 'á' => 'Á' | 'à' => 'À' | 'â' => 'Â' | 'ä' => 'Ä'
  | 'î' => 'Î' | 'ï' => 'Ï' | 'ô' => 'Ô' | 'ö' => 'Ö'
  | 'û' => 'Û' | 'ü' => 'Ü' | 'ù' => 'Ù' | 'ç' => 'Ç'
  | _ => c

/-- `normName` (src/App.jsx lines 47–52): strip diacritics (NFD +
remove combining marks), lowercase, trim. -/
def normName (s : String) : String :=
  ⟨trimChars ((s.data.map foldDiacritic).map lowerChar)⟩

/-- JS `toUpperCase` on a whole string. -/
def jsToUpperStr (s : String) : String :=
  ⟨s.data.map upperChar⟩

/-- The name-translation step of `parseCSV` (src/App.jsx lines 86–89):
when the trimmed value is longer than two characters, read
`NAME_TO_CODE[normName(region)]`.  An own key yields its code string.  A
miss that is an `Object.prototype` property name yields the inherited
truthy function/object, so `if (code)` fires, `region` becomes a
non-string, and the following `region.toUpperCase()` throws a TypeError —
modelled as `none`.  (The lookup key is a `normName` output, hence all
lowercase, so of the prototype names exactly `"constructor"` and
`"__proto__"` are reachable; the list is kept whole for uniformity.)  Any
other miss reads `undefined`, which is falsy, and `region` is kept. -/
def translateRegion (region : String) : Option String :=
  if 2 < region.length then
    match List.lookup (normName region) NAME_TO_CODE with
    | some code => some code
    | none =>
      if objectProtoKeys.contains (normName region) then none
      else some region
  else some region

/-- The region-resolution step of `parseCSV` (src/App.jsx lines 85–90):
trim the raw value, translate full names, then uppercase; `none` is the
thrown TypeError of the prototype-key path. -/
def resolveRegion (raw : String) : Option String :=
  Option.map jsToUpperStr (translateRegion ⟨trimChars raw.data⟩)

/-- The uppercase letters `upperChar` can produce (used to show it is
idempotent). -/
def upperOutputs : List Char :=
  ['A', 'B', 'C', 'D', 'E', 'F', 'G', 'H', 'I', 'J', 'K', 'L', 'M',
   'N', 'O', 'P', 'Q', 'R', 'S', 'T', 'U', 'V', 'W', 'X', 'Y', 'Z',
   'É', 'È', 'Ê', 'Ë', 'Á', 'À', 'Â', 'Ä', 'Î', 'Ï', 'Ô', 'Ö', 'Û',
   'Ü', 'Ù', 'Ç']

/-- The inputs used to check the resolver over the full name table:
every full name (both alternate spellings of Newfoundland and Labrador
included), the `PEI` abbreviation, and assorted case/diacritic/whitespace
variants, paired with the expected canonical code. -/
def resolverChecks : List (String × String) :=
  [("Alberta", "AB"), ("ALBERTA", "AB"), ("alberta", "AB"),
   ("British Columbia", "BC"), ("british columbia", "BC"),
   ("Manitoba", "MB"), ("New Brunswick", "NB"),
   ("Newfoundland and Labrador", "NL"), ("Newfoundland & Labrador", "NL"),
   ("Nova Scotia", "NS"), ("NOVA SCOTIA", "NS"),
   ("Northwest Territories", "NT"), ("Nunavut", "NU"),
   ("Ontario", "ON"), ("ontario", "ON"),
   ("Prince Edward Island", "PE"), ("PEI", "PE"), ("pei", "PE"),
   ("Quebec", "QC"), ("Québec", "QC"), ("QUÉBEC", "QC"), ("qUéBeC", "QC"),
   ("Saskatchewan", "SK"), ("SASKATCHEWAN", "SK"),
   ("Yukon", "YT"), (" Yukon ", "YT")]

/-! ## Real-valued model: wind heading estimator and geodesic projector

JS numbers here are modelled as reals (exact arithmetic).  `Math.atan2`
is the complex argument; `%` is the truncated remainder `jsRem`;
`Math.round` rounds half toward positive infinity. -/

noncomputable section

/-- Truncation toward zero (the rounding JS `%` uses on its quotient). -/
def jsTrunc (x : ℝ) : ℤ := if 0 ≤ x then ⌊x⌋ else ⌈x⌉

/-- The JS `%` operator on numbers: remainder with the sign of the
dividend, `a - b * trunc(a / b)`. -/
def jsRem (a b : ℝ) : ℝ := a - b * (jsTrunc (a / b) : ℝ)

/-- `mod360` (src/App.jsx line 130): `((d % 360) + 360) % 360`. -/
def mod360 (d : ℝ) : ℝ := jsRem (jsRem d 360 + 360) 360

/-- `toRad` (src/App.jsx line 131). -/
def toRad (d : ℝ) : ℝ := d * Real.pi / 180

/-- `toDeg` (src/App.jsx line 132). -/
def toDeg (r : ℝ) : ℝ := r * 180 / Real.pi

/-- `Math.atan2(y, x)`: the argument of the complex number `x + y·i`,
valued in `(-π, π]`.  (The IEEE signed-zero distinctions of `Math.atan2`
collapse in a real-number model, where there is a single zero.) -/
def atan2 (y x : ℝ) : ℝ := Complex.arg ⟨x, y⟩

/-- `Math.round`: round half toward positive infinity. -/
def jsRound (x : ℝ) : ℤ := ⌊x + 1 / 2⌋

/-- `WAF[env] ?? 0.7` (src/App.jsx lines 129 and 141).  The three own
keys yield their factors.  For an `Object.prototype` property name the
read returns the inherited function/object, which is **not** nullish, so
`?? 0.7` does not fire and the factor is non-numeric (`none`: all later
arithmetic on it is `NaN`).  Any other key reads `undefined` and the
`?? 0.7` default applies. -/
def wafOf (env : String) : Option ℝ :=
  if env = "grass" then some 0.7
  else if env = "shrub" then some 0.5
  else if env = "forest" then some 0.3
  else if objectProtoKeys.contains env then none
  else some 0.7

/-- The 16 compass labels (src/App.jsx line 134). -/
def compassDirs : List String :=
  ["N", "NNE", "NE", "ENE", "E", "ESE", "SE", "SSE",
   "S", "SSW", "SW", "WSW", "W", "WNW", "NW", "NNW"]

/-- The lookup index `Math.round(mod360(deg) / 22.5) % 16` of
`compassFromDeg` (src/App.jsx line 135); JS `%` on integers is the
truncated remainder `Int.tmod`. -/
def compassIndex (deg : ℝ) : ℤ := (jsRound (mod360 deg / 22.5)).tmod 16

/-- `compassFromDeg` (src/App.jsx lines 133–136).  An out-of-range JS
array access would give `undefined`, modelled by the `""` default; the
safety theorem shows it is never taken. -/
def compassFromDeg (deg : ℝ) : String :=
  compassDirs.getD (compassIndex deg).toNat ""

/-- The result object `{ headingDeg, compass }` of `predictHeading`.
`headingDeg = none` is `NaN` and `compass = none` is the `undefined` of
an out-of-range lookup, the outcome when `WAF[env]` is the inherited
prototype function. -/
structure HeadingResult where
  headingDeg : Option ℝ
  compass : Option String

/-- The eastward mid-flame wind vector component `u` before the slope
push (src/App.jsx lines 139–144), for a numeric wind adjustment factor
`w` (the local `waf` of line 141). -/
def windU (speedKmh dirFromDeg w : ℝ) : ℝ :=
  w * (speedKmh / 3.6) * Real.cos (toRad (mod360 (dirFromDeg + 180)))

/-- The northward mid-flame wind vector component `v` before the slope
push (src/App.jsx lines 139–145), for a numeric wind adjustment factor
`w`. -/
def windV (speedKmh dirFromDeg w : ℝ) : ℝ :=
  w * (speedKmh / 3.6) * Real.sin (toRad (mod360 (dirFromDeg + 180)))

/-- The slope push magnitude `0.02 * (slopePct / 10)`
(src/App.jsx line 149). -/
def slopePush (slopePct : ℝ) : ℝ := 0.02 * (slopePct / 10)

/-- The `(u, v)` vector after the optional slope push (src/App.jsx
lines 147–152), for a numeric wind adjustment factor `w`.  `slopePct` and
`slopeDirTo` are `none` exactly when the corresponding JS value is not
finite (`Number.isFinite` guard, line 148). -/
def windUV (speedKmh dirFromDeg w : ℝ)
    (slopePct slopeDirTo : Option ℝ) : ℝ × ℝ :=
  match slopePct, slopeDirTo with
  | some p, some θ =>
      (windU speedKmh dirFromDeg w + slopePush p * Real.cos (toRad θ),
       windV speedKmh dirFromDeg w + slopePush p * Real.sin (toRad θ))
  | _, _ => (windU speedKmh dirFromDeg w, windV speedKmh dirFromDeg w)

/-- `predictHeading` (src/App.jsx lines 137–156).  When `WAF[env]` is the
inherited prototype function (`wafOf env = none`), `waf * speedMs` is
`NaN`, so `u`, `v`, `atan2(v, u)`, `mod360(...)` and the lookup index are
all `NaN` and the result is `{ headingDeg: NaN, compass: undefined }`.
With a numeric factor the computation is exact real arithmetic; when the
wind vector is exactly zero (`speedKmh = 0`) IEEE signed zeros can steer
`Math.atan2` to `±π` where this real model's `atan2 0 0 = 0` — that case
is modelled separately by `headingAtZeroSpeed` (both outcomes lie in
`[0, 360)` with a label from the fixed table, so the safety statement is
insensitive to the difference). -/
def predictHeading (speedKmh dirFromDeg : ℝ) (env : String)
    (slopePct slopeDirTo : Option ℝ) : HeadingResult :=
  match wafOf env with
  | none => ⟨none, none⟩
  | some w =>
    let uv := windUV speedKmh dirFromDeg w slopePct slopeDirTo
    let heading := mod360 (toDeg (atan2 uv.2 uv.1))
    ⟨some heading, some (compassFromDeg heading)⟩

/-- The sign of an IEEE floating-point zero. -/
inductive FZeroSign where
  | pos : FZeroSign
  | neg : FZeroSign
deriving DecidableEq, Repr

/-- The sign of the IEEE zero produced by `waf * (0 / 3.6) * c` with
`waf > 0`: the sign of `c`.  The argument is the exact real cosine/sine;
at the inputs the zero-speed theorems use, the sign of the floating-point
evaluation agrees with it, the real-zero boundary included:
`Math.cos(Math.PI) = -1` exactly, `Math.sin(Math.PI) ≈ +1.2e-16 > 0`
(the double `Math.PI` is below π, where the sine is still positive) so a
real value 0 corresponds to a positive float or `+0`, matching the `pos`
branch of `0 ≤ c`. -/
def zeroSignOf (c : ℝ) : FZeroSign :=
  if 0 ≤ c then FZeroSign.pos else FZeroSign.neg

/-- `Math.atan2` on a pair of IEEE zeros `(y, x)`:
`atan2(±0, +0) = ±0` (and `-0` subsequently normalizes to `0` through
`toDeg`/`mod360`, so it is returned as `0` here), `atan2(+0, -0) = π`,
`atan2(-0, -0) = -π`. -/
def atan2Zeros : FZeroSign → FZeroSign → ℝ
  | _, FZeroSign.pos => 0
  | FZeroSign.pos, FZeroSign.neg => Real.pi
  | FZeroSign.neg, FZeroSign.neg => -Real.pi

/-- `predictHeading` at `speedKmh = 0` with slope absent, under IEEE-754
semantics (src/App.jsx lines 139–155): `u` and `v` are zeros signed like
the cosine and sine of the TO-heading, and the heading is
`mod360(toDeg(Math.atan2(v, u)))` on those signed zeros. -/
def headingAtZeroSpeed (dirFromDeg : ℝ) : ℝ :=
  mod360 (toDeg (atan2Zeros
    (zeroSignOf (Real.sin (toRad (mod360 (dirFromDeg + 180)))))
    (zeroSignOf (Real.cos (toRad (mod360 (dirFromDeg + 180)))))))

/-- `destPoint` (src/App.jsx lines 159–167): spherical forward geodesic
with Earth radius 6371 km; inputs and outputs in degrees, the result
longitude wrapped by `((λ2·180/π + 540) % 360) - 180`. -/
def destPoint (lat lon bearingDeg distanceKm : ℝ) : ℝ × ℝ :=
  let R : ℝ := 6371
  let brng := toRad bearingDeg
  let φ1 := toRad lat
  let lam1 := toRad lon
  let dR := distanceKm / R
  let φ2 := Real.arcsin (Real.sin φ1 * Real.cos dR +
    Real.cos φ1 * Real.sin dR * Real.cos brng)
  let lam2 := lam1 + atan2 (Real.sin brng * Real.sin dR * Real.cos φ1)
    (Real.cos dR - Real.sin φ1 * Real.sin φ2)
  (φ2 * 180 / Real.pi, jsRem (lam2 * 180 / Real.pi + 540) 360 - 180)

/-- The destination latitude in radians by the standard spherical
forward-geodesic formula as the spec words it (§4.6), with Earth radius
6371 km: `φ2 = asin(sin φ1 · cos δ + cos φ1 · sin δ · cos θ)`. -/
def specDestLatRad (lat bearingDeg distanceKm : ℝ) : ℝ :=
  Real.arcsin (Real.sin (toRad lat) * Real.cos (distanceKm / 6371) +
    Real.cos (toRad lat) * Real.sin (distanceKm / 6371) * Real.cos (toRad bearingDeg))

/-- The destination longitude in radians by the standard spherical
forward-geodesic formula as the spec words it (§4.6):
`λ2 = λ1 + atan2(sin θ · sin δ · cos φ1, cos δ - sin φ1 · sin φ2)`. -/
def specDestLonRad (lat lon bearingDeg distanceKm : ℝ) : ℝ :=
  toRad lon + atan2
    (Real.sin (toRad bearingDeg) * Real.sin (distanceKm / 6371) * Real.cos (toRad lat))
    (Real.cos (distanceKm / 6371) -
      Real.sin (toRad lat) * Real.sin (specDestLatRad lat bearingDeg distanceKm))

/-! ## Marker scaler -/

/-- `Math.sqrt`, with its `NaN` result on negative input explicit. -/
def jsSqrt (x : ℝ) : Option ℝ := if 0 ≤ x then some (Real.sqrt x) else none

/-- `radiusFor` (src/App.jsx lines 122–126).  `areaHa` is a finite value
or `none` for a non-finite one (the `Number.isFinite` guard); `maxArea`
is the computed maximum, a plain number at both call sites (so `!maxArea`
is `maxArea = 0`).  A `none` result is the `NaN` that a negative ratio's
square root propagates through `Math.min`/`Math.max` and the arithmetic. -/
def radiusFor (areaHa : Option ℝ) (maxArea : ℝ) : Option ℝ :=
  if maxArea = 0 ∨ areaHa.isNone then some 6
  else
    match areaHa with
    | none => some 6
    | some a =>
      match jsSqrt (a / maxArea) with
      | none => none
      | some s => some (6 + max 0 (min 1 s) * 16)

end

theorem sumForProvince_nil (c : String) : sumForProvince [] c = 0 := rfl

theorem sumForProvince_cons (r : Record) (rows : List Record) (c : String) :
    sumForProvince (r :: rows) c =
      (if includedRec r && r.region == c then areaVal r else 0) + sumForProvince rows c := by
  by_cases h : (includedRec r && r.region == c) = true
  · simp [sumForProvince, h, List.filter_cons]
  · simp [sumForProvince, h, List.filter_cons]

theorem sumForProvince_of_not_hit {rows : List Record} {c : String}
    (h : hitsProvince rows c = false) : sumForProvince rows c = 0 := by
  have hfil : (rows.filter fun r => includedRec r && r.region == c) = [] := by
    apply List.filter_eq_nil_iff.mpr
    intro a ha hcon
    have hh : hitsProvince rows c = true := List.any_eq_true.mpr ⟨a, ha, hcon⟩
    rw [hh] at h
    cases h
  simp [sumForProvince, hfil]

/-- One step of the fold at a key the record hits. -/
theorem aggStep_hit {r : Record} {c : String} (hinc : includedRec r = true)
    (hreg : r.region = c) (t : String → Option TotalVal) :
    aggStep t r c = some (match t c with
      | none =>
        if objectProtoKeys.contains c then TotalVal.str c [areaVal r]
        else TotalVal.num (areaVal r)
      | some (TotalVal.num q) => TotalVal.num (q + areaVal r)
      | some (TotalVal.str k l) => TotalVal.str k (l ++ [areaVal r])) := by
  subst hreg
  unfold aggStep
  simp [hinc]

/-- One step of the fold at a key the record does not hit. -/
theorem aggStep_miss {r : Record} {c : String}
    (h : (includedRec r && r.region == c) = false) (t : String → Option TotalVal) :
    aggStep t r c = t c := by
  unfold aggStep
  by_cases hinc : includedRec r = true
  · have hbc : (r.region == c) = false := by simpa [hinc] using h
    have hne : ¬(c = r.region) := by
      intro he
      rw [he, beq_self_eq_true] at hbc
      cases hbc
    simp [hinc, hne]
  · simp [hinc]

/-- The fold, started from an accumulator that is numeric (or absent) at
a non-prototype key `c`, adds `sumForProvince` at `c` when some record
hits it and leaves `c` alone otherwise. -/
theorem agg_foldl (rows : List Record) (t : String → Option TotalVal) (c : String)
    (hc : objectProtoKeys.contains c = false)
    (ht : t c = none ∨ ∃ q, t c = some (TotalVal.num q)) :
    List.foldl aggStep t rows c =
      if hitsProvince rows c then
        some (TotalVal.num (numOr0 (t c) + sumForProvince rows c))
      else t c := by
  induction rows generalizing t with
  | nil => simp [hitsProvince, sumForProvince]
  | cons r rows ih =>
    rw [List.foldl_cons]
    by_cases hrc : (includedRec r && r.region == c) = true
    · have hsplit : includedRec r = true ∧ (r.region == c) = true := by
        simpa using hrc
      have hreg : r.region = c := beq_iff_eq.mp hsplit.2
      have hhit : hitsProvince (r :: rows) c = true := by
        simp [hitsProvince, List.any_cons, hrc]
      have hstep : aggStep t r c = some (TotalVal.num (numOr0 (t c) + areaVal r)) := by
        rw [aggStep_hit hsplit.1 hreg]
        rcases ht with ht0 | ⟨q, htq⟩
        · rw [ht0]
          have hcm : c ∉ objectProtoKeys := by simpa using hc
          simp [hcm, numOr0]
        · rw [htq]
          simp [numOr0]
      have ht' : aggStep t r c = none ∨ ∃ q, aggStep t r c = some (TotalVal.num q) :=
        Or.inr ⟨_, hstep⟩
      rw [ih _ ht', hstep]
      by_cases hrest : hitsProvince rows c = true
      · rw [if_pos hrest, if_pos hhit, sumForProvince_cons, if_pos hrc]
        simp [numOr0, add_assoc]
      · rw [if_neg hrest, if_pos hhit, sumForProvince_cons, if_pos hrc,
          sumForProvince_of_not_hit (Bool.eq_false_iff.mpr hrest)]
        simp [numOr0]
    · have hhit : hitsProvince (r :: rows) c = hitsProvince rows c := by
        simp [hitsProvince, List.any_cons, hrc]
      have hstep : aggStep t r c = t c := aggStep_miss (Bool.eq_false_iff.mpr hrc) t
      have ht' : aggStep t r c = none ∨ ∃ q, aggStep t r c = some (TotalVal.num q) := by
        rw [hstep]
        exact ht
      rw [ih _ ht', hstep, hhit, sumForProvince_cons, if_neg hrc, zero_add]

/-- Characterization of the aggregator at a non-prototype key: the key is
present iff some included record has that region, and then its value is
the numeric arithmetic sum of the included areas. -/
theorem aggregateByProvince_eq (rows : List Record) (c : String)
    (hc : objectProtoKeys.contains c = false) :
    aggregateByProvince rows c =
      if hitsProvince rows c then some (TotalVal.num (sumForProvince rows c))
      else none := by
  unfold aggregateByProvince
  rw [agg_foldl rows _ c hc (Or.inl rfl)]
  by_cases h : hitsProvince rows c = true <;> simp [h, numOr0]

/-- At an `Object.prototype` key the accumulated entry is never numeric:
the first write concatenates onto the inherited value and produces a
string, and strings only grow. -/
theorem agg_foldl_not_num (rows : List Record) (t : String → Option TotalVal) (c : String)
    (hc : objectProtoKeys.contains c = true)
    (ht : ∀ q, t c ≠ some (TotalVal.num q)) :
    ∀ q, List.foldl aggStep t rows c ≠ some (TotalVal.num q) := by
  induction rows generalizing t with
  | nil => exact ht
  | cons r rows ih =>
    rw [List.foldl_cons]
    apply ih
    intro q hq
    by_cases hrc : (includedRec r && r.region == c) = true
    · have hsplit : includedRec r = true ∧ (r.region == c) = true := by
        simpa using hrc
      have hreg : r.region = c := beq_iff_eq.mp hsplit.2
      rw [aggStep_hit hsplit.1 hreg] at hq
      rcases h : t c with _ | tv
      · rw [h] at hq
        have hcm : c ∈ objectProtoKeys := by simpa using hc
        simp [hcm] at hq
      · cases tv with
        | num q' => exact ht q' h
        | str k l =>
          rw [h] at hq
          simp at hq
    · rw [aggStep_miss (Bool.eq_false_iff.mpr hrc)] at hq
      exact ht q hq

/-- The aggregator never stores a number at an `Object.prototype` key. -/
theorem aggregateByProvince_proto_not_num (rows : List Record) (c : String)
    (hc : objectProtoKeys.contains c = true) :
    ∀ q, aggregateByProvince rows c ≠ some (TotalVal.num q) := by
  unfold aggregateByProvince
  exact agg_foldl_not_num rows _ c hc (fun _ h => Option.noConfusion h)

theorem hitsProvince_perm {rows₁ rows₂ : List Record} (h : rows₁.Perm rows₂)
    (c : String) : hitsProvince rows₁ c = hitsProvince rows₂ c := by
  unfold hitsProvince
  by_cases h1 : (rows₁.any fun r => includedRec r && r.region == c) = true
  · rw [h1]
    rcases List.any_eq_true.mp h1 with ⟨r, hr, hp⟩
    exact (List.any_eq_true.mpr ⟨r, h.mem_iff.mp hr, hp⟩).symm
  · rw [Bool.eq_false_iff.mpr h1]
    symm
    rw [Bool.eq_false_iff]
    intro h2
    rcases List.any_eq_true.mp h2 with ⟨r, hr, hp⟩
    exact h1 (List.any_eq_true.mpr ⟨r, h.mem_iff.mpr hr, hp⟩)

theorem sumForProvince_perm {rows₁ rows₂ : List Record} (h : rows₁.Perm rows₂)
    (c : String) : sumForProvince rows₁ c = sumForProvince rows₂ c :=
  List.Perm.sum_eq (List.Perm.map areaVal (List.Perm.filter _ h))

/-- The aggregator is invariant under permutation of the input rows at
every non-prototype key (at prototype keys the string totals record the
input order). -/
theorem aggregateByProvince_perm {rows₁ rows₂ : List Record}
    (h : rows₁.Perm rows₂) (c : String)
    (hc : objectProtoKeys.contains c = false) :
    aggregateByProvince rows₁ c = aggregateByProvince rows₂ c := by
  rw [aggregateByProvince_eq rows₁ c hc, aggregateByProvince_eq rows₂ c hc,
    hitsProvince_perm h, sumForProvince_perm h]

/-! ### Region resolver lemmas -/

theorem lower_fold_upperChar (c : Char) :
    lowerChar (foldDiacritic (upperChar c)) = lowerChar (foldDiacritic c) := by
  unfold upperChar
  split <;> rfl

theorem isWhitespace_upperChar (c : Char) :
    (upperChar c).isWhitespace = c.isWhitespace := by
  unfold upperChar
  split <;> rfl

theorem upperChar_fixes : ∀ c ∈ upperOutputs, upperChar c = c := by decide

theorem upperChar_cases (c : Char) : upperChar c = c ∨ upperChar c ∈ upperOutputs := by
  unfold upperChar
  split
  all_goals first | (left; rfl) | (right; decide)

theorem upperChar_idem (c : Char) : upperChar (upperChar c) = upperChar c := by
  rcases upperChar_cases c with h | h
  · rw [h]; exact h
  · exact upperChar_fixes _ h

theorem trimChars_map_upper (cs : List Char) :
    trimChars (cs.map upperChar) = (trimChars cs).map upperChar := by
  unfold trimChars
  have hw : (Char.isWhitespace ∘ upperChar) = Char.isWhitespace := by
    funext c
    exact isWhitespace_upperChar c
  rw [List.dropWhile_map, hw, ← List.map_reverse, List.dropWhile_map, hw, ← List.map_reverse]

/-- `normName` is insensitive to letter case: uppercasing the input (in the
JS sense, accented letters included) does not change the normalized name. -/
theorem normName_upper (s : String) : normName (jsToUpperStr s) = normName s := by
  show (⟨trimChars (((s.data.map upperChar).map foldDiacritic).map lowerChar)⟩ : String)
      = ⟨trimChars ((s.data.map foldDiacritic).map lowerChar)⟩
  congr 1
  rw [List.map_map, List.map_map, List.map_map]
  have hmap : List.map ((lowerChar ∘ foldDiacritic) ∘ upperChar) s.data
      = List.map (lowerChar ∘ foldDiacritic) s.data :=
    List.map_congr_left (fun a _ => lower_fold_upperChar a)
  rw [hmap]

theorem jsToUpperStr_idem (s : String) : jsToUpperStr (jsToUpperStr s) = jsToUpperStr s := by
  show (⟨(s.data.map upperChar).map upperChar⟩ : String) = ⟨s.data.map upperChar⟩
  congr 1
  rw [List.map_map]
  exact List.map_congr_left (fun a _ => upperChar_idem a)

theorem translateRegion_upper (t : String) :
    Option.map jsToUpperStr (translateRegion (jsToUpperStr t))
      = Option.map jsToUpperStr (translateRegion t) := by
  unfold translateRegion
  have hlen : (jsToUpperStr t).length = t.length := by
    show (t.data.map upperChar).length = t.data.length
    exact List.length_map _ _
  rw [hlen, normName_upper t]
  by_cases hl : 2 < t.length
  · rw [if_pos hl, if_pos hl]
    cases List.lookup (normName t) NAME_TO_CODE with
    | some code => rfl
    | none =>
      by_cases hp : normName t ∈ objectProtoKeys
      · simp [hp]
      · simp [hp, jsToUpperStr_idem]
  · rw [if_neg hl, if_neg hl]
    show some (jsToUpperStr (jsToUpperStr t)) = some (jsToUpperStr t)
    rw [jsToUpperStr_idem]

/-- The whole resolution step is insensitive to letter case of the raw
region value (the throwing prototype-key path included: both sides throw
for the same inputs). -/
theorem resolveRegion_upper (s : String) :
    resolveRegion (jsToUpperStr s) = resolveRegion s := by
  unfold resolveRegion
  have h : (⟨trimChars (jsToUpperStr s).data⟩ : String) = jsToUpperStr ⟨trimChars s.data⟩ := by
    show (⟨trimChars (s.data.map upperChar)⟩ : String) = ⟨(trimChars s.data).map upperChar⟩
    exact congrArg String.mk (trimChars_map_upper s.data)
  rw [h]
  exact translateRegion_upper ⟨trimChars s.data⟩

/-! ### JS remainder, `mod360`, rounding -/

theorem jsRem_nonneg_bounds {a b : ℝ} (ha : 0 ≤ a) (hb : 0 < b) :
    0 ≤ jsRem a b ∧ jsRem a b < b := by
  have hq : 0 ≤ a / b := div_nonneg ha hb.le
  have hfl : jsTrunc (a / b) = ⌊a / b⌋ := if_pos hq
  have h1 : (⌊a / b⌋ : ℝ) ≤ a / b := Int.floor_le _
  have h2 : a / b < ⌊a / b⌋ + 1 := Int.lt_floor_add_one _
  have hab : a / b * b = a := div_mul_cancel₀ a hb.ne'
  unfold jsRem
  rw [hfl]
  constructor <;> nlinarith

theorem jsRem_neg_bounds {a b : ℝ} (ha : a < 0) (hb : 0 < b) :
    -b < jsRem a b ∧ jsRem a b ≤ 0 := by
  have hq : ¬0 ≤ a / b := by
    rw [not_le]
    exact div_neg_of_neg_of_pos ha hb
  have hfl : jsTrunc (a / b) = ⌈a / b⌉ := if_neg hq
  have h1 : a / b ≤ (⌈a / b⌉ : ℝ) := Int.le_ceil _
  have h2 : (⌈a / b⌉ : ℝ) < a / b + 1 := Int.ceil_lt_add_one _
  have hab : a / b * b = a := div_mul_cancel₀ a hb.ne'
  unfold jsRem
  rw [hfl]
  constructor <;> nlinarith

theorem mod360_bounds (d : ℝ) : 0 ≤ mod360 d ∧ mod360 d < 360 := by
  unfold mod360
  have h360 : (0 : ℝ) < 360 := by norm_num
  have h2 : 0 ≤ jsRem d 360 + 360 := by
    rcases le_or_lt 0 d with hd | hd
    · linarith [(jsRem_nonneg_bounds hd h360).1]
    · linarith [(jsRem_neg_bounds hd h360).1]
  exact jsRem_nonneg_bounds h2 h360

theorem jsRem_eq_self {a b : ℝ} (ha : 0 ≤ a) (hab : a < b) : jsRem a b = a := by
  have hb : 0 < b := lt_of_le_of_lt ha hab
  have hq : 0 ≤ a / b := div_nonneg ha hb.le
  have hz : ⌊a / b⌋ = 0 := by
    rw [Int.floor_eq_zero_iff]
    exact Set.mem_Ico.mpr ⟨hq, (div_lt_one hb).mpr hab⟩
  unfold jsRem jsTrunc
  rw [if_pos hq, hz]
  push_cast
  ring

theorem jsRem_add_cancel {a b : ℝ} (ha : 0 ≤ a) (hab : a < b) : jsRem (a + b) b = a := by
  have hb : 0 < b := lt_of_le_of_lt ha hab
  have hq : 0 ≤ (a + b) / b := by positivity
  have hsplit : (a + b) / b = a / b + 1 := by field_simp
  have hz : ⌊a / b⌋ = 0 := by
    rw [Int.floor_eq_zero_iff]
    exact Set.mem_Ico.mpr ⟨div_nonneg ha hb.le, (div_lt_one hb).mpr hab⟩
  unfold jsRem jsTrunc
  rw [if_pos hq, hsplit, Int.floor_add_one, hz]
  push_cast
  ring

theorem mod360_eq_self {d : ℝ} (h0 : 0 ≤ d) (h1 : d < 360) : mod360 d = d := by
  unfold mod360
  rw [jsRem_eq_self h0 h1, jsRem_add_cancel h0 h1]

theorem mod360_shift {d : ℝ} (h0 : 0 ≤ d) (h1 : d < 360) : mod360 (d + 360) = d := by
  unfold mod360
  rw [jsRem_add_cancel h0 h1, jsRem_add_cancel h0 h1]

/-! ### `atan2` and degree conversions -/

theorem atan2_bounds (y x : ℝ) : -Real.pi < atan2 y x ∧ atan2 y x ≤ Real.pi :=
  ⟨Complex.neg_pi_lt_arg _, Complex.arg_le_pi _⟩

theorem atan2_zero_neg {u : ℝ} (hu : u < 0) : atan2 0 u = Real.pi := by
  unfold atan2
  have h : (⟨u, 0⟩ : ℂ) = (u : ℂ) := by
    apply Complex.ext <;> simp
  rw [h]
  exact Complex.arg_ofReal_of_neg hu

theorem atan2_zero_nonneg {x : ℝ} (hx : 0 ≤ x) : atan2 0 x = 0 := by
  unfold atan2
  have h : (⟨x, 0⟩ : ℂ) = (x : ℂ) := by
    apply Complex.ext <;> simp
  rw [h]
  exact Complex.arg_ofReal_of_nonneg hx

theorem atan2_pos_zero {v : ℝ} (hv : 0 < v) : atan2 v 0 = Real.pi / 2 := by
  unfold atan2
  apply Complex.arg_eq_pi_div_two_iff.mpr
  exact ⟨rfl, by simpa using hv⟩

theorem toRad_zero : toRad 0 = 0 := by
  unfold toRad
  ring

theorem toRad_180 : toRad 180 = Real.pi := by
  unfold toRad
  field_simp

theorem toRad_90 : toRad 90 = Real.pi / 2 := by
  unfold toRad
  field_simp
  ring

theorem toDeg_pi : toDeg Real.pi = 180 := by
  unfold toDeg
  rw [mul_comm, mul_div_assoc, div_self Real.pi_ne_zero, mul_one]

theorem toDeg_pi_div_two : toDeg (Real.pi / 2) = 90 := by
  unfold toDeg
  field_simp [Real.pi_ne_zero]
  ring

theorem toDeg_zero : toDeg 0 = 0 := by
  unfold toDeg
  simp

/-- A recognized fuel environment has a positive numeric wind adjustment
factor. -/
theorem wafOf_enum {env : String}
    (henv : env ∈ (["grass", "shrub", "forest"] : List String)) :
    ∃ w : ℝ, wafOf env = some w ∧ 0 < w := by
  simp only [List.mem_cons, List.mem_singleton, List.not_mem_nil, or_false] at henv
  rcases henv with h | h | h
  · subst h
    exact ⟨0.7, rfl, by norm_num⟩
  · subst h
    exact ⟨0.5, rfl, by norm_num⟩
  · subst h
    exact ⟨0.3, rfl, by norm_num⟩

/-! ### Heading estimator lemmas -/

/-- Evaluation of `predictHeading` when the wind adjustment factor is the
numeric `w`. -/
theorem predictHeading_of_waf {env : String} {w : ℝ} (hw : wafOf env = some w)
    (s d : ℝ) (sp sd : Option ℝ) :
    predictHeading s d env sp sd =
      ⟨some (mod360 (toDeg (atan2 (windUV s d w sp sd).2 (windUV s d w sp sd).1))),
       some (compassFromDeg
         (mod360 (toDeg (atan2 (windUV s d w sp sd).2 (windUV s d w sp sd).1))))⟩ := by
  unfold predictHeading
  rw [hw]

theorem windUV_none (s d w : ℝ) :
    windUV s d w none none = (windU s d w, windV s d w) := rfl

theorem heading_from0_w {s w : ℝ} (hs : 0 < s) (hw : 0 < w) :
    mod360 (toDeg (atan2 (windUV s 0 w none none).2 (windUV s 0 w none none).1)) = 180 := by
  have hm : mod360 ((0 : ℝ) + 180) = 180 := by
    rw [show (0 : ℝ) + 180 = 180 by norm_num]
    exact mod360_eq_self (by norm_num) (by norm_num)
  have hu : windU s 0 w = -(w * (s / 3.6)) := by
    unfold windU
    rw [hm, toRad_180, Real.cos_pi]
    ring
  have hv : windV s 0 w = 0 := by
    unfold windV
    rw [hm, toRad_180, Real.sin_pi]
    ring
  have hult : windU s 0 w < 0 := by
    rw [hu]
    have : 0 < w * (s / 3.6) := mul_pos hw (div_pos hs (by norm_num))
    linarith
  rw [windUV_none, hv, atan2_zero_neg hult, toDeg_pi]
  exact mod360_eq_self (by norm_num) (by norm_num)

theorem heading_from270_w {s w : ℝ} (hs : 0 < s) (hw : 0 < w) :
    mod360 (toDeg (atan2 (windUV s 270 w none none).2 (windUV s 270 w none none).1)) = 90 := by
  have hm : mod360 ((270 : ℝ) + 180) = 90 := by
    rw [show (270 : ℝ) + 180 = 90 + 360 by norm_num]
    exact mod360_shift (by norm_num) (by norm_num)
  have hu : windU s 270 w = 0 := by
    unfold windU
    rw [hm, toRad_90, Real.cos_pi_div_two]
    ring
  have hv : windV s 270 w = w * (s / 3.6) := by
    unfold windV
    rw [hm, toRad_90, Real.sin_pi_div_two]
    ring
  have hvpos : 0 < windV s 270 w := by
    rw [hv]
    exact mul_pos hw (div_pos hs (by norm_num))
  rw [windUV_none, hu, atan2_pos_zero hvpos, toDeg_pi_div_two]
  exact mod360_eq_self (by norm_num) (by norm_num)

theorem compassIndex_nonneg (deg : ℝ) : 0 ≤ compassIndex deg := by
  apply Int.tmod_nonneg
  apply Int.floor_nonneg.mpr
  have := (mod360_bounds deg).1
  have h1 : 0 ≤ mod360 deg / 22.5 := by positivity
  linarith

theorem compassIndex_toNat_lt (deg : ℝ) : (compassIndex deg).toNat < 16 := by
  have h0 := compassIndex_nonneg deg
  have h1 : compassIndex deg < 16 := Int.tmod_lt_of_pos _ (by norm_num)
  omega

theorem compassFromDeg_mem (deg : ℝ) : compassFromDeg deg ∈ compassDirs := by
  unfold compassFromDeg
  have h : (compassIndex deg).toNat < compassDirs.length := by
    have := compassIndex_toNat_lt deg
    simpa [compassDirs] using this
  rw [List.getD_eq_getElem _ _ h]
  exact List.getElem_mem h

theorem slope_decomp_u (s d w : ℝ) (p θ : ℝ) :
    (windUV s d w (some p) (some θ)).1
      = windU s d w + 0.002 * p * Real.cos (toRad θ) := by
  show windU s d w + slopePush p * Real.cos (toRad θ) = _
  unfold slopePush
  ring

theorem slope_decomp_v (s d w : ℝ) (p θ : ℝ) :
    (windUV s d w (some p) (some θ)).2
      = windV s d w + 0.002 * p * Real.sin (toRad θ) := by
  show windV s d w + slopePush p * Real.sin (toRad θ) = _
  unfold slopePush
  ring

/-! ### Zero-speed IEEE signed-zero lemmas -/

theorem compassFromDeg_180 : compassFromDeg 180 = "S" := by
  have h1 : mod360 (180 : ℝ) = 180 := mod360_eq_self (by norm_num) (by norm_num)
  have h2 : (180 : ℝ) / 22.5 = 8 := by norm_num
  have h3 : jsRound (8 : ℝ) = 8 := by
    unfold jsRound
    norm_num
  unfold compassFromDeg compassIndex
  rw [h1, h2, h3]
  rfl

theorem compassFromDeg_0 : compassFromDeg 0 = "N" := by
  have h1 : mod360 (0 : ℝ) = 0 := mod360_eq_self (by norm_num) (by norm_num)
  have h2 : (0 : ℝ) / 22.5 = 0 := by norm_num
  have h3 : jsRound (0 : ℝ) = 0 := by
    unfold jsRound
    norm_num
  unfold compassFromDeg compassIndex
  rw [h1, h2, h3]
  rfl

theorem headingAtZeroSpeed_0 : headingAtZeroSpeed 0 = 180 := by
  unfold headingAtZeroSpeed
  have hm : mod360 ((0 : ℝ) + 180) = 180 := by
    rw [show (0 : ℝ) + 180 = 180 by norm_num]
    exact mod360_eq_self (by norm_num) (by norm_num)
  rw [hm, toRad_180, Real.sin_pi, Real.cos_pi]
  rw [show zeroSignOf (0 : ℝ) = FZeroSign.pos from if_pos le_rfl]
  rw [show zeroSignOf (-1 : ℝ) = FZeroSign.neg from if_neg (by norm_num)]
  rw [show atan2Zeros FZeroSign.pos FZeroSign.neg = Real.pi from rfl]
  rw [toDeg_pi]
  exact mod360_eq_self (by norm_num) (by norm_num)

theorem headingAtZeroSpeed_180 : headingAtZeroSpeed 180 = 0 := by
  unfold headingAtZeroSpeed
  have hm : mod360 ((180 : ℝ) + 180) = 0 := by
    rw [show (180 : ℝ) + 180 = 0 + 360 by norm_num]
    exact mod360_shift (by norm_num) (by norm_num)
  rw [hm, toRad_zero, Real.sin_zero, Real.cos_zero]
  rw [show zeroSignOf (0 : ℝ) = FZeroSign.pos from if_pos le_rfl]
  rw [show zeroSignOf (1 : ℝ) = FZeroSign.pos from if_pos (by norm_num)]
  rw [show atan2Zeros FZeroSign.pos FZeroSign.pos = 0 from rfl]
  rw [toDeg_zero]
  exact mod360_eq_self (by norm_num) (by norm_num)

theorem slope_norm_sq (p θ : ℝ) :
    (0.002 * p * Real.cos (toRad θ)) ^ 2 + (0.002 * p * Real.sin (toRad θ)) ^ 2
      = (0.002 * p) ^ 2 := by
  have hc := Real.sin_sq_add_cos_sq (toRad θ)
  nlinarith [hc]

/-! ### Geodesic projector lemmas -/

theorem destPoint_eq (lat lon b d : ℝ) :
    destPoint lat lon b d =
      (specDestLatRad lat b d * 180 / Real.pi,
       jsRem (specDestLonRad lat lon b d * 180 / Real.pi + 540) 360 - 180) := rfl

theorem specDestLonRad_bounds {lat lon b d : ℝ} (h1 : -180 ≤ lon) (h2 : lon ≤ 180) :
    -(2 * Real.pi) < specDestLonRad lat lon b d ∧
      specDestLonRad lat lon b d ≤ 2 * Real.pi := by
  have hpi := Real.pi_pos
  have htr1 : -Real.pi ≤ toRad lon := by
    unfold toRad
    nlinarith [mul_nonneg (show (0 : ℝ) ≤ lon + 180 by linarith) hpi.le]
  have htr2 : toRad lon ≤ Real.pi := by
    unfold toRad
    nlinarith [mul_nonneg (show (0 : ℝ) ≤ 180 - lon by linarith) hpi.le]
  unfold specDestLonRad
  obtain ⟨hA1, hA2⟩ := atan2_bounds
    (Real.sin (toRad b) * Real.sin (d / 6371) * Real.cos (toRad lat))
    (Real.cos (d / 6371) - Real.sin (toRad lat) * Real.sin (specDestLatRad lat b d))
  constructor <;> linarith

theorem destPoint_lon_range {lat lon b d : ℝ} (h1 : -180 ≤ lon) (h2 : lon ≤ 180) :
    -180 ≤ (destPoint lat lon b d).2 ∧ (destPoint lat lon b d).2 < 180 := by
  have hpi := Real.pi_pos
  obtain ⟨hl1, hl2⟩ := @specDestLonRad_bounds lat lon b d h1 h2
  have hL1 : -360 < specDestLonRad lat lon b d * 180 / Real.pi := by
    rw [lt_div_iff₀ hpi]
    nlinarith
  have hL2 : specDestLonRad lat lon b d * 180 / Real.pi ≤ 360 := by
    rw [div_le_iff₀ hpi]
    nlinarith
  have hx : 0 ≤ specDestLonRad lat lon b d * 180 / Real.pi + 540 := by linarith
  obtain ⟨hr1, hr2⟩ := jsRem_nonneg_bounds hx (show (0 : ℝ) < 360 by norm_num)
  rw [destPoint_eq]
  constructor
  · show -180 ≤ jsRem (specDestLonRad lat lon b d * 180 / Real.pi + 540) 360 - 180
    linarith
  · show jsRem (specDestLonRad lat lon b d * 180 / Real.pi + 540) 360 - 180 < 180
    linarith

theorem specLat_000 : specDestLatRad 0 0 0 = 0 := by
  unfold specDestLatRad
  rw [toRad_zero]
  norm_num [Real.sin_zero, Real.cos_zero, Real.arcsin_zero]

theorem specLon_0_180 : specDestLonRad 0 180 0 0 = Real.pi := by
  unfold specDestLonRad
  rw [toRad_zero, toRad_180, specLat_000]
  have ha : atan2 0 1 = 0 := atan2_zero_nonneg (by norm_num)
  norm_num [Real.sin_zero, Real.cos_zero, ha]

theorem destPoint_at_antimeridian : destPoint 0 180 0 0 = (0, -180) := by
  rw [destPoint_eq, specLat_000, specLon_0_180]
  have h180 : Real.pi * 180 / Real.pi = 180 := toDeg_pi
  rw [h180]
  have hr : jsRem ((180 : ℝ) + 540) 360 = 0 := by
    rw [show (180 : ℝ) + 540 = 720 by norm_num]
    unfold jsRem jsTrunc
    norm_num
  rw [hr]
  norm_num [Prod.ext_iff]

/-! ### Marker scaler lemmas -/

theorem radiusFor_none (m : ℝ) : radiusFor none m = some 6 := by
  unfold radiusFor
  simp

theorem radiusFor_zero_max (x : Option ℝ) : radiusFor x 0 = some 6 := by
  unfold radiusFor
  simp

theorem radiusFor_formula {a m : ℝ} (hm : m ≠ 0) (hr : 0 ≤ a / m) :
    radiusFor (some a) m = some (6 + max 0 (min 1 (Real.sqrt (a / m))) * 16) := by
  unfold radiusFor jsSqrt
  simp [hm, hr]

theorem radiusFor_zero_area (m : ℝ) : radiusFor (some 0) m = some 6 := by
  by_cases hm : m = 0
  · rw [hm]
    exact radiusFor_zero_max _
  · rw [radiusFor_formula hm (by rw [zero_div])]
    norm_num [Real.sqrt_zero]

theorem radiusFor_mono {a₁ a₂ m : ℝ} (hm : 0 ≤ m) (h0 : 0 ≤ a₁) (h12 : a₁ ≤ a₂) :
    ∃ r₁ r₂, radiusFor (some a₁) m = some r₁ ∧ radiusFor (some a₂) m = some r₂ ∧
      r₁ ≤ r₂ := by
  rcases eq_or_lt_of_le hm with hm0 | hmpos
  · refine ⟨6, 6, ?_, ?_, le_refl 6⟩ <;> rw [← hm0] <;> exact radiusFor_zero_max _
  · have hr1 : 0 ≤ a₁ / m := div_nonneg h0 hmpos.le
    have hr2 : 0 ≤ a₂ / m := div_nonneg (le_trans h0 h12) hmpos.le
    refine ⟨_, _, radiusFor_formula hmpos.ne' hr1, radiusFor_formula hmpos.ne' hr2, ?_⟩
    have hdiv : a₁ / m ≤ a₂ / m := by gcongr
    have hs : Real.sqrt (a₁ / m) ≤ Real.sqrt (a₂ / m) := Real.sqrt_le_sqrt hdiv
    have hmx : max 0 (min 1 (Real.sqrt (a₁ / m))) ≤ max 0 (min 1 (Real.sqrt (a₂ / m))) :=
      max_le_max (le_refl 0) (min_le_min (le_refl 1) hs)
    linarith

/-! ## Claim theorems -/

theorem stripSeparators_idem (s : String) :
    stripSeparators (stripSeparators s) = stripSeparators s := by
  unfold stripSeparators
  show (⟨List.filter _ (List.filter _ s.data)⟩ : String) = ⟨List.filter _ s.data⟩
  congr 1
  rw [List.filter_filter]
  congr 1
  funext a
  cases h : (!(a = ',' || a = ' ')) <;> simp [h]

/-- C1 counterexample: coercing the empty string yields the number 0, not
`NaN` (JS `Number("")` is 0). -/
theorem toNum_empty_is_zero :
    toNum (some "") = JSNum.fin 0 ∧ toNum none = JSNum.fin 0 ∧
      JSNum.fin 0 ≠ JSNum.nan := by
  refine ⟨rfl, rfl, by decide⟩

/-- C1 (amended): `toNum` strips commas and spaces, parses the rest as a
JS number, returns `NaN` when parsing fails or the value is non-finite,
returns 0 for empty or absent input, and is total (never throws): every
result is either `NaN` or a finite number. -/
theorem toNum_spec :
    (∀ v : Option String, toNum v = JSNum.nan ∨ ∃ q : ℚ, toNum v = JSNum.fin q)
    ∧ toNum none = JSNum.fin 0
    ∧ toNum (some "") = JSNum.fin 0
    ∧ (∀ s : String, toNum (some s) = toNum (some (stripSeparators s)))
    ∧ (∀ s : String, jsStrToNumber (stripSeparators s) = JSNum.nan →
        toNum (some s) = JSNum.nan) := by
  refine ⟨?_, rfl, rfl, ?_, ?_⟩
  · intro v
    unfold toNum
    cases hj : jsStrToNumber (stripSeparators (v.getD "")) with
    | fin q =>
      right
      exact ⟨q, by simp [JSNum.isFinite]⟩
    | nan => left; simp [JSNum.isFinite]
    | inf => left; simp [JSNum.isFinite]
    | negInf => left; simp [JSNum.isFinite]
  · intro s
    unfold toNum
    rw [show (some s).getD "" = s from rfl,
      show (some (stripSeparators s)).getD "" = stripSeparators s from rfl,
      stripSeparators_idem]
  · intro s h
    unfold toNum
    rw [show (some s).getD "" = s from rfl, h]
    simp [JSNum.isFinite]

/-- C1 witness: a concrete parse failure comes back as `NaN`. -/
theorem toNum_spec_witness :
    jsStrToNumber (stripSeparators "abc") = JSNum.nan ∧
      toNum (some "abc") = JSNum.nan :=
  ⟨by decide, toNum_spec.2.2.2.2 "abc" (by decide)⟩

/-- C2 counterexample: the record `{region: "toString", area_ha: 5}` has
a region outside the 13-code set yet is included by the program — the JS
`in` operator finds `"toString"` on `Object.prototype`, and the totals
object ends up with a string entry at that key. -/
theorem aggregate_proto_included :
    includedRec ⟨"toString", JSNum.fin 5, JSNum.nan⟩ = true
    ∧ ("toString" ∈ centroidCodes → False)
    ∧ aggregateByProvince [⟨"toString", JSNum.fin 5, JSNum.nan⟩] "toString"
        = some (TotalVal.str "toString" [5]) := by
  refine ⟨by decide, by decide, ?_⟩
  show aggStep (fun _ => none) ⟨"toString", JSNum.fin 5, JSNum.nan⟩ "toString" = _
  rw [aggStep_hit (by decide) rfl]
  decide

/-- C2 (amended): a record contributes iff its region is one of the 13
canonical codes **or** an `Object.prototype` property name (the JS `in`
operator consults the prototype chain) and its area is finite; at every
non-prototype key each present total is the numeric arithmetic sum of
the included areas of its region (absent otherwise) and the aggregation
is invariant under permutation of the input list; prototype-named keys
instead accumulate order-dependent strings. -/
theorem aggregate_spec :
    (∀ r : Record, includedRec r = true ↔
        ((r.region ∈ centroidCodes ∨ r.region ∈ objectProtoKeys)
          ∧ ∃ q : ℚ, r.area_ha = JSNum.fin q))
    ∧ (∀ (rows : List Record) (c : String), objectProtoKeys.contains c = false →
        aggregateByProvince rows c =
          if hitsProvince rows c then some (TotalVal.num (sumForProvince rows c))
          else none)
    ∧ (∀ rows₁ rows₂ : List Record, rows₁.Perm rows₂ →
        ∀ c : String, objectProtoKeys.contains c = false →
          aggregateByProvince rows₁ c = aggregateByProvince rows₂ c) := by
  refine ⟨?_, aggregateByProvince_eq, fun _ _ h c hc => aggregateByProvince_perm h c hc⟩
  intro r
  constructor
  · intro h
    simp only [includedRec, Bool.and_eq_true] at h
    obtain ⟨⟨hne, hmem⟩, hfin⟩ := h
    refine ⟨by simpa using hmem, ?_⟩
    cases hq : r.area_ha with
    | fin q => exact ⟨q, rfl⟩
    | nan => simp [toNumOfNumber, hq, JSNum.isFinite] at hfin
    | inf => simp [toNumOfNumber, hq, JSNum.isFinite] at hfin
    | negInf => simp [toNumOfNumber, hq, JSNum.isFinite] at hfin
  · rintro ⟨hmem, q, hq⟩
    simp only [includedRec, Bool.and_eq_true]
    refine ⟨⟨?_, by simpa using hmem⟩, by simp [toNumOfNumber, hq, JSNum.isFinite]⟩
    have hne : r.region ≠ "" := by
      intro he
      rw [he] at hmem
      rcases hmem with h | h
      · exact absurd h (by decide)
      · exact absurd h (by decide)
    simpa using hne

/-- C2 witness: a concrete two-row permutation leaves the totals at the
non-prototype key "AB" unchanged. -/
theorem aggregate_spec_witness :
    ([⟨"AB", JSNum.fin 1, JSNum.nan⟩, ⟨"BC", JSNum.fin 2, JSNum.nan⟩] : List Record).Perm
        [⟨"BC", JSNum.fin 2, JSNum.nan⟩, ⟨"AB", JSNum.fin 1, JSNum.nan⟩]
    ∧ objectProtoKeys.contains "AB" = false
    ∧ aggregateByProvince [⟨"AB", JSNum.fin 1, JSNum.nan⟩, ⟨"BC", JSNum.fin 2, JSNum.nan⟩] "AB"
        = aggregateByProvince [⟨"BC", JSNum.fin 2, JSNum.nan⟩, ⟨"AB", JSNum.fin 1, JSNum.nan⟩] "AB" :=
  ⟨List.Perm.swap _ _ _, by decide,
    aggregate_spec.2.2 _ _ (List.Perm.swap _ _ _) "AB" (by decide)⟩

/-- C9 counterexample: a single record with a negative finite area makes
its province total negative. -/
theorem aggregate_negative_total :
    aggregateByProvince [⟨"AB", JSNum.fin (-1), JSNum.nan⟩] "AB"
      = some (TotalVal.num (-1)) ∧ (-1 : ℚ) < 0 := by
  constructor
  · show aggStep (fun _ => none) ⟨"AB", JSNum.fin (-1), JSNum.nan⟩ "AB" = _
    rw [aggStep_hit (by decide) rfl]
    decide
  · norm_num

/-- C9 (amended): every numeric province total is non-negative provided
every record's finite area value is non-negative — the code never checks
the sign, so negative inputs flow through; and totals at
`Object.prototype`-named regions are strings, not numbers, so they are
outside the numeric invariant altogether. -/
theorem aggregate_nonneg_of_nonneg (rows : List Record)
    (hpos : ∀ r ∈ rows, ∀ q : ℚ, r.area_ha = JSNum.fin q → 0 ≤ q) :
    ∀ c q, aggregateByProvince rows c = some (TotalVal.num q) → 0 ≤ q := by
  intro c q hq
  by_cases hc : objectProtoKeys.contains c = true
  · exact absurd hq (aggregateByProvince_proto_not_num rows c hc q)
  · have hc' : objectProtoKeys.contains c = false := Bool.eq_false_iff.mpr hc
    rw [aggregateByProvince_eq rows c hc'] at hq
    by_cases hh : hitsProvince rows c = true
    · rw [if_pos hh] at hq
      have hsum : sumForProvince rows c = q := TotalVal.num.inj (Option.some.inj hq)
      rw [← hsum]
      apply List.sum_nonneg
      intro x hx
      obtain ⟨r, hr, rfl⟩ := List.mem_map.mp hx
      have hrmem : r ∈ rows := (List.mem_filter.mp hr).1
      cases harea : r.area_ha with
      | fin q' =>
        have := hpos r hrmem q' harea
        simpa [areaVal, toNumOfNumber, harea] using this
      | nan => simp [areaVal, toNumOfNumber, harea]
      | inf => simp [areaVal, toNumOfNumber, harea]
      | negInf => simp [areaVal, toNumOfNumber, harea]
    · rw [if_neg hh] at hq
      cases hq

/-- C9 witness: with non-negative areas every numeric total is
non-negative. -/
theorem aggregate_nonneg_witness :
    (∀ r ∈ ([⟨"AB", JSNum.fin 3, JSNum.nan⟩] : List Record),
      ∀ q : ℚ, r.area_ha = JSNum.fin q → 0 ≤ q)
    ∧ ∀ c q, aggregateByProvince [⟨"AB", JSNum.fin 3, JSNum.nan⟩] c
        = some (TotalVal.num q) → 0 ≤ q := by
  have hpos : ∀ r ∈ ([⟨"AB", JSNum.fin 3, JSNum.nan⟩] : List Record),
      ∀ q : ℚ, r.area_ha = JSNum.fin q → 0 ≤ q := by
    intro r hr q hq
    simp only [List.mem_singleton] at hr
    subst hr
    cases hq
    norm_num
  exact ⟨hpos, aggregate_nonneg_of_nonneg _ hpos⟩

/-- C3: with slope absent and positive wind speed, a wind FROM 0° gives a
TO-heading of exactly 180° and a wind FROM 270° gives exactly 90°, for
every fuel environment of the WindInput enum. -/
theorem heading_cardinal_winds (s : ℝ) (env : String) (hs : 0 < s)
    (henv : env ∈ (["grass", "shrub", "forest"] : List String)) :
    (predictHeading s 0 env none none).headingDeg = some 180
    ∧ (predictHeading s 270 env none none).headingDeg = some 90 := by
  obtain ⟨w, hw, hwp⟩ := wafOf_enum henv
  constructor
  · rw [predictHeading_of_waf hw]
    show some (mod360 (toDeg (atan2 (windUV s 0 w none none).2 (windUV s 0 w none none).1)))
        = some 180
    rw [heading_from0_w hs hwp]
  · rw [predictHeading_of_waf hw]
    show some (mod360 (toDeg (atan2 (windUV s 270 w none none).2 (windUV s 270 w none none).1)))
        = some 90
    rw [heading_from270_w hs hwp]

/-- C3 witness at speed 10 km/h in grass. -/
theorem heading_cardinal_winds_witness :
    (0 : ℝ) < 10 ∧ "grass" ∈ (["grass", "shrub", "forest"] : List String)
    ∧ ((predictHeading 10 0 "grass" none none).headingDeg = some 180
      ∧ (predictHeading 10 270 "grass" none none).headingDeg = some 90) :=
  ⟨by norm_num, by simp,
    heading_cardinal_winds 10 "grass" (by norm_num) (by simp)⟩

/-- C4: when both slope parameters are finite the vector added to (u, v)
is exactly `0.002·slopePct` times the unit vector along the slope-to
direction; its squared norm is `(0.002·slopePct)²` for every `slopePct`,
and its norm is `0.002·slopePct` whenever `slopePct ≥ 0`. -/
theorem slope_push_vector (s d w : ℝ) (p θ : ℝ) :
    (windUV s d w (some p) (some θ)).1
        = windU s d w + 0.002 * p * Real.cos (toRad θ)
    ∧ (windUV s d w (some p) (some θ)).2
        = windV s d w + 0.002 * p * Real.sin (toRad θ)
    ∧ ((windUV s d w (some p) (some θ)).1 - windU s d w) ^ 2
        + ((windUV s d w (some p) (some θ)).2 - windV s d w) ^ 2
        = (0.002 * p) ^ 2
    ∧ (0 ≤ p →
        Real.sqrt (((windUV s d w (some p) (some θ)).1 - windU s d w) ^ 2
          + ((windUV s d w (some p) (some θ)).2 - windV s d w) ^ 2)
          = 0.002 * p) := by
  have hu := slope_decomp_u s d w p θ
  have hv := slope_decomp_v s d w p θ
  have hsq : ((windUV s d w (some p) (some θ)).1 - windU s d w) ^ 2
      + ((windUV s d w (some p) (some θ)).2 - windV s d w) ^ 2
      = (0.002 * p) ^ 2 := by
    rw [hu, hv]
    have h1 : windU s d w + 0.002 * p * Real.cos (toRad θ) - windU s d w
        = 0.002 * p * Real.cos (toRad θ) := by ring
    have h2 : windV s d w + 0.002 * p * Real.sin (toRad θ) - windV s d w
        = 0.002 * p * Real.sin (toRad θ) := by ring
    rw [h1, h2]
    exact slope_norm_sq p θ
  refine ⟨hu, hv, hsq, ?_⟩
  intro hp
  rw [hsq]
  exact Real.sqrt_sq (by nlinarith)

/-- C4 witness at slopePct 10, slope direction 0°, factor 0.7. -/
theorem slope_push_vector_witness :
    (0 : ℝ) ≤ 10
    ∧ Real.sqrt (((windUV 1 0 0.7 (some 10) (some 0)).1 - windU 1 0 0.7) ^ 2
        + ((windUV 1 0 0.7 (some 10) (some 0)).2 - windV 1 0 0.7) ^ 2)
        = 0.002 * 10 :=
  ⟨by norm_num, (slope_push_vector 1 0 0.7 10 0).2.2.2 (by norm_num)⟩

/-- C5 counterexample: from origin (0°, 180°) with any bearing and zero
distance the returned longitude is −180°, which is outside the claimed
normalization interval (−180, 180]. -/
theorem destPoint_lon_not_in_Ioc :
    (destPoint 0 180 0 0).2 = -180
    ∧ (destPoint 0 180 0 0).2 ∉ Set.Ioc (-180 : ℝ) 180 := by
  have h : destPoint 0 180 0 0 = (0, -180) := destPoint_at_antimeridian
  constructor
  · rw [h]
  · rw [h]
    simp [Set.mem_Ioc]

/-- C5 (amended): for every origin with latitude in [−90, 90] and
longitude in [−180, 180], any heading, and non-negative distance,
`destPoint` is the standard spherical forward geodesic with Earth radius
6371 km, and the returned longitude lies in [−180, 180). -/
theorem destPoint_spec {lat lon b d : ℝ} (hlat : -90 ≤ lat ∧ lat ≤ 90)
    (hlon : -180 ≤ lon ∧ lon ≤ 180) (hd : 0 ≤ d) :
    destPoint lat lon b d =
      (specDestLatRad lat b d * 180 / Real.pi,
        jsRem (specDestLonRad lat lon b d * 180 / Real.pi + 540) 360 - 180)
    ∧ -180 ≤ (destPoint lat lon b d).2 ∧ (destPoint lat lon b d).2 < 180 :=
  ⟨destPoint_eq lat lon b d, (destPoint_lon_range hlon.1 hlon.2).1,
    (destPoint_lon_range hlon.1 hlon.2).2⟩

/-- C5 witness at origin (0, 0), bearing 0, distance 0. -/
theorem destPoint_spec_witness :
    ((-90 : ℝ) ≤ 0 ∧ (0 : ℝ) ≤ 90) ∧ ((-180 : ℝ) ≤ 0 ∧ (0 : ℝ) ≤ 180) ∧ (0 : ℝ) ≤ 0
    ∧ (destPoint 0 0 0 0 =
        (specDestLatRad 0 0 0 * 180 / Real.pi,
          jsRem (specDestLonRad 0 0 0 0 * 180 / Real.pi + 540) 360 - 180)
      ∧ -180 ≤ (destPoint 0 0 0 0).2 ∧ (destPoint 0 0 0 0).2 < 180) :=
  ⟨⟨by norm_num, by norm_num⟩, ⟨by norm_num, by norm_num⟩, le_refl 0,
    destPoint_spec ⟨by norm_num, by norm_num⟩ ⟨by norm_num, by norm_num⟩ (le_refl 0)⟩

/-- C6: the resolver maps every full province/territory name (alternate
spellings included) and the PEI abbreviation to its canonical code, over
an exhaustive concrete table with case, diacritic and whitespace
variants; and resolution — including the throwing prototype-key error
path, modelled as `none` — is invariant under uppercasing the input. -/
theorem region_resolver_correct :
    (resolverChecks.all fun p => resolveRegion p.1 == some p.2) = true
    ∧ ∀ s : String, resolveRegion (jsToUpperStr s) = resolveRegion s :=
  ⟨rfl, resolveRegion_upper⟩

/-- C7: the marker radius follows `6 + clamp(√(area/maxArea), 0, 1)·16`
when `maxArea ≠ 0` and the ratio is in the square root's domain; it is 6
when `maxArea = 0`, when the area is non-finite, or when the area is 0;
and it is monotone non-decreasing in the area. -/
theorem radiusFor_spec :
    (∀ a m : ℝ, m ≠ 0 → 0 ≤ a / m →
        radiusFor (some a) m = some (6 + max 0 (min 1 (Real.sqrt (a / m))) * 16))
    ∧ (∀ x : Option ℝ, radiusFor x 0 = some 6)
    ∧ (∀ m : ℝ, radiusFor none m = some 6)
    ∧ (∀ m : ℝ, radiusFor (some 0) m = some 6)
    ∧ (∀ a₁ a₂ m : ℝ, 0 ≤ m → 0 ≤ a₁ → a₁ ≤ a₂ →
        ∃ r₁ r₂, radiusFor (some a₁) m = some r₁ ∧ radiusFor (some a₂) m = some r₂ ∧
          r₁ ≤ r₂) :=
  ⟨fun _ _ hm hr => radiusFor_formula hm hr, radiusFor_zero_max, radiusFor_none,
    radiusFor_zero_area, fun _ _ _ hm h0 h12 => radiusFor_mono hm h0 h12⟩

/-- C7 witness: concrete radii at areas 1 ≤ 2 with maxArea 4. -/
theorem radiusFor_spec_witness :
    ((1 : ℝ) ≠ 0) ∧ ((0 : ℝ) ≤ 4 ∧ (0 : ℝ) ≤ 1 ∧ (1 : ℝ) ≤ 2)
    ∧ (∃ r₁ r₂, radiusFor (some 1) 4 = some r₁ ∧ radiusFor (some 2) 4 = some r₂ ∧
        r₁ ≤ r₂) :=
  ⟨by norm_num, ⟨by norm_num, by norm_num, by norm_num⟩,
    radiusFor_spec.2.2.2.2 1 2 4 (by norm_num) (by norm_num) (by norm_num)⟩

/-- C8: for every input satisfying the WindInput precondition — wind
speed ≥ 0, FROM-direction in [0, 360), a fuel environment of the enum —
the predicted heading is a number in [0, 360), the compass lookup index
is in bounds, and the returned label is one of the 16 fixed compass
strings: the lookup never fails. -/
theorem predictHeading_safe (s d : ℝ) (env : String) (sp sd : Option ℝ)
    (hs : 0 ≤ s) (hd1 : 0 ≤ d) (hd2 : d < 360)
    (henv : env ∈ (["grass", "shrub", "forest"] : List String)) :
    ∃ h : ℝ, (predictHeading s d env sp sd).headingDeg = some h
      ∧ 0 ≤ h ∧ h < 360
      ∧ (compassIndex h).toNat < compassDirs.length
      ∧ (predictHeading s d env sp sd).compass = some (compassFromDeg h)
      ∧ compassFromDeg h ∈ compassDirs := by
  obtain ⟨w, hw, hwp⟩ := wafOf_enum henv
  rw [predictHeading_of_waf hw]
  refine ⟨mod360 (toDeg (atan2 (windUV s d w sp sd).2 (windUV s d w sp sd).1)),
    rfl, ?_, ?_, ?_, rfl, ?_⟩
  · exact (mod360_bounds _).1
  · exact (mod360_bounds _).2
  · have := compassIndex_toNat_lt
      (mod360 (toDeg (atan2 (windUV s d w sp sd).2 (windUV s d w sp sd).1)))
    simpa [compassDirs] using this
  · exact compassFromDeg_mem _

/-- C8 witness at speed 5 km/h, FROM 45°, grass. -/
theorem predictHeading_safe_witness :
    (0 : ℝ) ≤ 5 ∧ (0 : ℝ) ≤ 45 ∧ (45 : ℝ) < 360
    ∧ "grass" ∈ (["grass", "shrub", "forest"] : List String)
    ∧ ∃ h : ℝ, (predictHeading 5 45 "grass" none none).headingDeg = some h
      ∧ 0 ≤ h ∧ h < 360
      ∧ (compassIndex h).toNat < compassDirs.length
      ∧ (predictHeading 5 45 "grass" none none).compass = some (compassFromDeg h)
      ∧ compassFromDeg h ∈ compassDirs :=
  ⟨by norm_num, by norm_num, by norm_num, by simp,
    predictHeading_safe 5 45 "grass" none none (by norm_num) (by norm_num)
      (by norm_num) (by simp)⟩

/-- C10 counterexample: at zero wind speed with slope absent and wind
FROM 0°, IEEE signed zeros make the program return heading 180° with
compass "S", not 0°/"N": `u = waf·0·cos(π)` evaluates to `-0` and
`Math.atan2(+0, -0) = π`. -/
theorem zero_speed_from0_south :
    headingAtZeroSpeed 0 = 180 ∧ compassFromDeg (headingAtZeroSpeed 0) = "S"
    ∧ (180 : ℝ) ≠ 0 ∧ "S" ≠ "N" := by
  refine ⟨headingAtZeroSpeed_0, ?_, by norm_num, by decide⟩
  rw [headingAtZeroSpeed_0]
  exact compassFromDeg_180

/-- C10 (amended): at zero wind speed with slope absent the heading
follows the IEEE sign of the zero wind vector — the sign of the cosine
of the TO-heading — so wind FROM 0° yields 180°/"S" while wind FROM 180°
yields 0°/"N"; zero speed does not uniformly produce a due-north
heading. -/
theorem zero_speed_heading_by_sign :
    (headingAtZeroSpeed 0 = 180 ∧ compassFromDeg (headingAtZeroSpeed 0) = "S")
    ∧ (headingAtZeroSpeed 180 = 0 ∧ compassFromDeg (headingAtZeroSpeed 180) = "N") := by
  refine ⟨⟨headingAtZeroSpeed_0, ?_⟩, ⟨headingAtZeroSpeed_180, ?_⟩⟩
  · rw [headingAtZeroSpeed_0]
    exact compassFromDeg_180
  · rw [headingAtZeroSpeed_180]
    exact compassFromDeg_0

end Wildfire
